import Mathlib

/-!
Shallow embedding of the estimate calculation and revisioning engine
(`src/service.py`, `src/schema.py`) of the estimates backend module.

Monetary values are embedded as rationals (`ℚ`): the Python code works with
IEEE floats, but every arithmetic operation it performs (+, -, *, /, integer
power) is exact on rationals, and the spec itself states its properties
"within float tolerance".  Python's `round` (banker's rounding, round half to
even) is embedded as `roundHalfEven` below.

The Python `ast` layer of `_eval_formula` is embedded as the inductive type
`PyExpr`: a constructor for each expression-node shape that can reach the
allow-list walk, including the disallowed shapes (call, attribute access,
subscript, comparison, boolean logic) so that the allow-list check is
meaningful.  `ast.parse` itself (string → tree) is external to the model; a
parse failure is the `FormulaError.parseError` case, raised at the string
layer before any tree exists.
-/

namespace Estimates

/-- Closed enumeration of section types (`SectionType` Literal in
`src/schema.py`). -/
inductive SectionType
  | MATERIAL
  | LABOR
  | EXPENSE
  | OVERHEAD
  | PROFIT
  | MANUAL
deriving DecidableEq, Repr

/-- Listing of all six section types, used to sum the values of the
subtotal dictionary. -/
def SectionType.all : List SectionType :=
  [.MATERIAL, .LABOR, .EXPENSE, .OVERHEAD, .PROFIT, .MANUAL]

/-- Name of a section type as the Python string (dictionary key of
`subtotals`, variable name in formula environments). -/
def SectionType.name : SectionType → String
  | .MATERIAL => "MATERIAL"
  | .LABOR => "LABOR"
  | .EXPENSE => "EXPENSE"
  | .OVERHEAD => "OVERHEAD"
  | .PROFIT => "PROFIT"
  | .MANUAL => "MANUAL"

/-- Binary operator nodes of the Python `ast` that occur in formulas
(`ast.Add`, `ast.Sub`, `ast.Mult`, `ast.Div`, `ast.Pow` — all on the
allow-list `_ALLOWED_FORMULA_NODES`). -/
inductive BOp
  | add
  | sub
  | mult
  | div
  | pow
deriving DecidableEq, Repr

/-- Unary operator nodes (`ast.UAdd`, `ast.USub`, both allow-listed). -/
inductive UOp
  | uadd
  | usub
deriving DecidableEq, Repr

/-- Expression trees produced by `ast.parse(expr, mode="eval")`, as far as the
formula evaluator distinguishes them.  `num` covers numeric `ast.Constant`
nodes; the final five constructors are shapes outside the allow-list
(`ast.Call`, `ast.Attribute`, `ast.Subscript`, `ast.Compare`, `ast.BoolOp`).
`call` carries one representative argument subtree (the walk rejects a call
node itself before its arity could matter). -/
inductive PyExpr
  | num (v : ℚ)
  | name (id : String)
  | binop (op : BOp) (l r : PyExpr)
  | unaryop (op : UOp) (e : PyExpr)
  | call (f arg : PyExpr)
  | attrAccess (obj : PyExpr) (attr : String)
  | subscript (obj idx : PyExpr)
  | compare (l r : PyExpr)
  | boolop (l r : PyExpr)
deriving DecidableEq, Repr

/-- Failure modes of the formula path.  The first three are the
`HTTPException(status_code=400, ...)` rejections of `_eval_formula`
(the "InvalidFormula" family of the spec); `zeroDivision` is Python's
uncaught `ZeroDivisionError` raised during `eval`; `nonIntegerPow` marks an
exponentiation with a non-integer exponent, which leaves the rational number
domain of this embedding (Python would compute an irrational float there). -/
inductive FormulaError
  | parseError (expr : String)
  | disallowedNode
  | unknownVariable (id : String)
  | zeroDivision
  | nonIntegerPow
deriving DecidableEq, Repr

/-- Membership of an error in the `InvalidFormula` family (an
`HTTPException 400` raised by `_eval_formula` itself, as opposed to an
arithmetic exception escaping from `eval`). -/
def FormulaError.isInvalidFormula : FormulaError → Bool
  | .parseError _ => true
  | .disallowedNode => true
  | .unknownVariable _ => true
  | .zeroDivision => false
  | .nonIntegerPow => false

/-- Formula environments: the Python dict passed to `eval`, as a partial map
from variable name to value. -/
def FEnv : Type := String → Option ℚ

/-- Walk of `ast.walk(tree)` checking `isinstance(node, _ALLOWED_FORMULA_NODES)`
at every node: `true` iff every node of the tree is allow-listed.  The operator
nodes (`Add`, `USub`, …) and `Load` contexts are all allow-listed, so only the
structural shape matters. -/
def allowedTree : PyExpr → Bool
  | .num _ => true
  | .name _ => true
  | .binop _ l r => allowedTree l && allowedTree r
  | .unaryop _ e => allowedTree e
  | .call _ _ => false
  | .attrAccess _ _ => false
  | .subscript _ _ => false
  | .compare _ _ => false
  | .boolop _ _ => false

/-- Identifiers of `ast.Name` nodes not present in the environment, in
traversal order (the walk of `_eval_formula` raises on the first one). -/
def unknownNames (env : FEnv) : PyExpr → List String
  | .num _ => []
  | .name id => if (env id).isSome then [] else [id]
  | .binop _ l r => unknownNames env l ++ unknownNames env r
  | .unaryop _ e => unknownNames env e
  | .call f arg => unknownNames env f ++ unknownNames env arg
  | .attrAccess obj _ => unknownNames env obj
  | .subscript obj idx => unknownNames env obj ++ unknownNames env idx
  | .compare l r => unknownNames env l ++ unknownNames env r
  | .boolop l r => unknownNames env l ++ unknownNames env r

/-- Evaluation of an allow-listed tree, mirroring Python's `eval` on the
restricted grammar: division by zero raises `ZeroDivisionError`; `0 ** n` with
`n < 0` likewise; a non-integer exponent leaves the rational domain and is
flagged `nonIntegerPow`.  The disallowed constructors and unknown names are
rejected defensively here as well, though `evalFormula` filters them out
before evaluation ever runs. -/
def evalPy (env : FEnv) : PyExpr → Except FormulaError ℚ
  | .num v => .ok v
  | .name id =>
      match env id with
      | some v => .ok v
      | none => .error (.unknownVariable id)
  | .binop op l r =>
      match evalPy env l with
      | .error e => .error e
      | .ok a =>
          match evalPy env r with
          | .error e => .error e
          | .ok b =>
              match op with
              | .add => .ok (a + b)
              | .sub => .ok (a - b)
              | .mult => .ok (a * b)
              | .div => if b = 0 then .error .zeroDivision else .ok (a / b)
              | .pow =>
                  if b.den = 1 then
                    if a = 0 ∧ b.num < 0 then .error .zeroDivision else .ok (a ^ b.num)
                  else .error .nonIntegerPow
  | .unaryop op e =>
      match evalPy env e with
      | .error er => .error er
      | .ok a =>
          match op with
          | .uadd => .ok a
          | .usub => .ok (-a)
  | .call _ _ => .error .disallowedNode
  | .attrAccess _ _ => .error .disallowedNode
  | .subscript _ _ => .error .disallowedNode
  | .compare _ _ => .error .disallowedNode
  | .boolop _ _ => .error .disallowedNode

/-- Embedding of `_eval_formula(expr, env)` from the parsed tree on: the walk
rejects any non-allow-listed node, then any `ast.Name` whose id is not a key of
`env`; only then is the compiled expression evaluated.  (The walk of the code
is breadth-first and raises at the first offending node; this embedding checks
the allow-list before the names, which can differ only in *which* of the two
400-errors is reported when both kinds of offence are present.) -/
def evalFormula (e : PyExpr) (env : FEnv) : Except FormulaError ℚ :=
  if ¬ allowedTree e then .error .disallowedNode
  else
    match unknownNames env e with
    | id :: _ => .error (.unknownVariable id)
    | [] => evalPy env e

/-- Banker's rounding (round half to even) of a rational to an integer —
the semantics of Python's builtin `round` on the exact value. -/
def roundHalfEven (x : ℚ) : ℤ :=
  let f : ℤ := ⌊x⌋
  let frac : ℚ := x - f
  if frac < 1 / 2 then f
  else if 1 / 2 < frac then f + 1
  else if f % 2 = 0 then f else f + 1

end Estimates

namespace Estimates

/-- One estimate line as accepted by the public schema (`EstimateLineIn` in
`src/schema.py`).  `calc_mode` is carried as its raw string (the service code
compares it against string literals and has a defensive branch for anything
else); schema validation restricts it to the closed `CalcMode` Literal, see
`validCalcMode`.  `formula` models the formula string after the string layer:
`none` stands for an absent or blank (whitespace-only) string, `some e` for a
string that parses to the tree `e`. -/
structure EstimateLineIn where
  line_order : ℤ := 1
  name : String
  spec : Option String := none
  unit : String := "EA"
  qty : ℚ := 1
  unit_price : Option ℚ := none
  amount : Option ℚ := none
  remark : Option String := none
  calc_mode : String := "NORMAL"
  base_section_type : Option SectionType := none
  formula : Option PyExpr := none
  source_type : Option String := some "NONE"
  source_id : Option ℤ := none
  price_type : Option String := none
deriving DecidableEq, Repr

/-- The closed `CalcMode` Literal of `src/schema.py`: a line accepted at the
public interface carries exactly one of these three strings. -/
def validCalcMode (s : String) : Bool :=
  s = "NORMAL" || s = "PERCENT_OF_SUBTOTAL" || s = "FORMULA"

/-- One estimate section as accepted by the public schema
(`EstimateSectionIn` in `src/schema.py`). -/
structure EstimateSectionIn where
  section_order : ℤ := 1
  section_type : SectionType
  title : String
  lines : List EstimateLineIn := []
deriving DecidableEq, Repr

/-- The default section substituted for an empty section list
(`EstimateSectionIn(section_order=1, section_type="MANUAL", title="수동",
lines=[])`). -/
def defaultSection : EstimateSectionIn :=
  { section_order := 1, section_type := .MANUAL, title := "수동", lines := [] }

/-- The `subtotals` dictionary `Dict[str, float]` of `_recalc_sections`,
keyed by section type: `none` when the type is not a key. -/
def Subtotals : Type := SectionType → Option ℚ

/-- The empty dictionary. -/
def Subtotals.empty : Subtotals := fun _ => none

/-- Assignment `subtotals[t] = v` (inserting or overwriting the key). -/
def Subtotals.set (m : Subtotals) (t : SectionType) (v : ℚ) : Subtotals :=
  fun u => if u = t then some v else m u

/-- Lookup `subtotals.get(t, 0.0)`. -/
def Subtotals.get (m : Subtotals) (t : SectionType) : ℚ := (m t).getD 0

/-- The value `sum(subtotals.values())`: Python sums only the present keys,
which equals summing `getD 0` over all six types since absent keys
contribute 0. -/
def Subtotals.sumValues (m : Subtotals) : ℚ :=
  (SectionType.all.map fun t => (m t).getD 0).sum

/-- Inner helper `_calc_normal(line)` of `_recalc_sections`:
`float(line.qty or 0) * float(line.unit_price or 0)`. -/
def calcNormal (ln : EstimateLineIn) : ℚ := ln.qty * ln.unit_price.getD 0

/-- Pass-1 per-section sum: the amounts of the NORMAL-mode lines only. -/
def normalSubtotal (sec : EstimateSectionIn) : ℚ :=
  sec.lines.foldl (fun st ln => if ln.calc_mode = "NORMAL" then st + calcNormal ln else st) 0

/-- Pass 1 of `_recalc_sections` threading the dictionary through the section
loop.  Note that each section *assigns* `subtotals[sec.section_type] = st`,
so a later section of the same type overwrites an earlier one. -/
def pass1Aux (m : Subtotals) : List EstimateSectionIn → Subtotals
  | [] => m
  | sec :: rest => pass1Aux (m.set sec.section_type (normalSubtotal sec)) rest

/-- Pass 1 of `_recalc_sections` (lines 151–157 of `src/service.py`). -/
def pass1 (sections : List EstimateSectionIn) : Subtotals :=
  pass1Aux Subtotals.empty sections

/-- Parsing a Python dictionary key back to a section type. -/
def SectionType.ofName (s : String) : Option SectionType :=
  SectionType.all.find? (fun t => t.name == s)

/-- The formula environment `{k: float(v) for k, v in subtotals.items()}`:
only the types present as keys of the dictionary are bound. -/
def envOf (m : Subtotals) : FEnv := fun s => (SectionType.ofName s).bind m

/-- One element of the `serialized_lines` list built during Pass 2
(lines 178–198 of `src/service.py`). -/
structure SerializedLine where
  section_type : SectionType
  section_order : ℤ
  title : String
  line_order : ℤ
  name : String
  spec : Option String
  unit : String
  qty : ℚ
  unit_price : Option ℚ
  amount : ℚ
  remark : Option String
  calc_mode : String
  base_section_type : Option SectionType
  formula : Option PyExpr
  source_type : Option String
  source_id : Option ℤ
  price_type : Option String
deriving DecidableEq, Repr

/-- Construction of the serialized dictionary for one line with computed
amount `amt`.  `qty` is stored as `float(ln.qty or 0) = ln.qty` and
`unit_price` as `float(ln.unit_price or 0) if ln.unit_price is not None else
None = ln.unit_price`. -/
def serializeLine (sec : EstimateSectionIn) (ln : EstimateLineIn) (amt : ℚ) : SerializedLine :=
  { section_type := sec.section_type
    section_order := sec.section_order
    title := sec.title
    line_order := ln.line_order
    name := ln.name
    spec := ln.spec
    unit := ln.unit
    qty := ln.qty
    unit_price := ln.unit_price
    amount := amt
    remark := ln.remark
    calc_mode := ln.calc_mode
    base_section_type := ln.base_section_type
    formula := ln.formula
    source_type := ln.source_type
    source_id := ln.source_id
    price_type := ln.price_type }

/-- The four branches of the `calc_mode` dispatch in Pass 2
(lines 163–174 of `src/service.py`), in source order. -/
inductive CalcBranch
  | normal
  | percentOfSubtotal
  | formulaMode
  | other
deriving DecidableEq, Repr

/-- Which branch of the if/elif/else chain a line takes. -/
def calcBranch (ln : EstimateLineIn) : CalcBranch :=
  if ln.calc_mode = "NORMAL" then .normal
  else if ln.calc_mode = "PERCENT_OF_SUBTOTAL" then .percentOfSubtotal
  else if ln.calc_mode = "FORMULA" then .formulaMode
  else .other

/-- The Pass-2 amount of one line given the dictionary `m` current when its
section is processed (the Line Calculator of the spec).  A FORMULA line with
an absent/blank formula yields 0; otherwise `_eval_formula` runs and may
fail.  The final `other` branch is the defensive `amt = 0.0` default. -/
def lineAmount (m : Subtotals) (secType : SectionType) (ln : EstimateLineIn) :
    Except FormulaError ℚ :=
  match calcBranch ln with
  | .normal => .ok (calcNormal ln)
  | .percentOfSubtotal =>
      let base := ln.base_section_type.getD secType
      .ok (m.get base * (ln.qty / 100))
  | .formulaMode =>
      match ln.formula with
      | none => .ok 0
      | some e => evalFormula e (envOf m)
  | .other => .ok 0

/-- The inner line loop of Pass 2 for one section: `st` accumulates the
section subtotal (`st += amt`), and each line appends its serialized
dictionary. -/
def pass2Lines (m : Subtotals) (sec : EstimateSectionIn) (st : ℚ) :
    List EstimateLineIn → Except FormulaError (ℚ × List SerializedLine)
  | [] => .ok (st, [])
  | ln :: rest =>
      match lineAmount m sec.section_type ln with
      | .error e => .error e
      | .ok amt =>
          match pass2Lines m sec (st + amt) rest with
          | .error e => .error e
          | .ok (stRest, ls) => .ok (stRest, serializeLine sec ln amt :: ls)

/-- Pass 2 of `_recalc_sections` (lines 159–200 of `src/service.py`).  After
each section the dictionary is reassigned `subtotals[sec.section_type] = st`
with the section's full Pass-2 subtotal — the environment is *not* frozen:
lines of later sections observe the updated values. -/
def pass2 (m : Subtotals) :
    List EstimateSectionIn → Except FormulaError (Subtotals × List SerializedLine)
  | [] => .ok (m, [])
  | sec :: rest =>
      match pass2Lines m sec 0 sec.lines with
      | .error e => .error e
      | .ok (st, ls) =>
          match pass2 (m.set sec.section_type st) rest with
          | .error e => .error e
          | .ok (m2, ls2) => .ok (m2, ls ++ ls2)

/-- The tuple returned by `_recalc_sections`. -/
structure RecalcResult where
  subtotals : Subtotals
  subtotal_all : ℚ
  tax : ℚ
  total : ℚ
  lines : List SerializedLine

/-- The `if not sections:` substitution at the head of both
`_recalc_sections` and `_insert_sections_and_lines`. -/
def withDefault (sections : List EstimateSectionIn) : List EstimateSectionIn :=
  if sections.isEmpty then [defaultSection] else sections

/-- Embedding of `_recalc_sections(sections)` (lines 133–205 of
`src/service.py`); the only failure source is `_eval_formula` on a FORMULA
line, which aborts the whole computation (the exception propagates). -/
def recalcSections (sections0 : List EstimateSectionIn) : Except FormulaError RecalcResult :=
  let sections := withDefault sections0
  let m1 := pass1 sections
  match pass2 m1 sections with
  | .error e => .error e
  | .ok (m2, ls) =>
      let subtotal_all := m2.sumValues
      let tax : ℚ := (roundHalfEven (subtotal_all * (1 / 10)) : ℤ)
      .ok { subtotals := m2
            subtotal_all := subtotal_all
            tax := tax
            total := subtotal_all + tax
            lines := ls }

end Estimates

namespace Estimates

/-- One row of `estimate_sections` as inserted by
`_insert_sections_and_lines` (lines 337–357 of `src/service.py`): the stored
subtotal is `float(subtotals.get(sec.section_type, 0.0))`, a lookup in the
final per-type dictionary, not a per-physical-section value. -/
structure SectionRow where
  section_type : SectionType
  section_order : ℤ
  title : String
  subtotal : ℚ
deriving DecidableEq, Repr

/-- One row of `estimate_items` as inserted by `_insert_sections_and_lines`
(the bound parameters of the INSERT, lines 431–449 of `src/service.py`),
restricted to the computed fields. -/
structure ItemRow where
  line_no : ℤ
  name : String
  unit : String
  unit_price : ℚ
  qty : ℚ
  line_total : ℚ
  line_order : ℤ
  calc_mode : String
  base_section_type : Option SectionType
  formula : Option PyExpr
deriving DecidableEq, Repr

/-- Section rows in persisted order: `sorted(sections, key=lambda s:
s.section_order)`, each with `subtotal = subtotals.get(sec.section_type,
0.0)` from the final dictionary `m`. -/
def sectionRowsOf (sections : List EstimateSectionIn) (m : Subtotals) : List SectionRow :=
  (List.insertionSort (fun a b => a.section_order ≤ b.section_order) sections).map
    fun sec =>
      { section_type := sec.section_type
        section_order := sec.section_order
        title := sec.title
        subtotal := m.get sec.section_type }

/-- Item rows from the serialized lines: `line_no/line_order = line_order`,
`unit = ln.get("unit") or "EA"`, `unit_price = float(ln.get("unit_price") or
0)`, `line_total = float(ln.get("amount") or 0) = amount`,
`calc_mode = ln.get("calc_mode") or "NORMAL"`. -/
def itemRowsOf (ls : List SerializedLine) : List ItemRow :=
  ls.map fun ln =>
    { line_no := ln.line_order
      name := ln.name
      unit := if ln.unit = "" then "EA" else ln.unit
      unit_price := ln.unit_price.getD 0
      qty := ln.qty
      line_total := ln.amount
      line_order := ln.line_order
      calc_mode := if ln.calc_mode = "" then "NORMAL" else ln.calc_mode
      base_section_type := ln.base_section_type
      formula := ln.formula }

/-- Result of `_insert_sections_and_lines`: the rows written plus the
returned `(subtotal_all, tax, total)` triple. -/
structure InsertResult where
  sectionRows : List SectionRow
  itemRows : List ItemRow
  subtotal_all : ℚ
  tax : ℚ
  total : ℚ

/-- Embedding of `_insert_sections_and_lines` (lines 322–452 of
`src/service.py`): substitute the default section for an empty list, recompute
via `_recalc_sections`, then write section rows (in `section_order`) and item
rows (in serialized order).  The `product_id` FK downgrade only affects the
persisted `product_id` column, which carries no computed value, and is not
modeled. -/
def insertSectionsAndLines (sections0 : List EstimateSectionIn) :
    Except FormulaError InsertResult :=
  let sections := withDefault sections0
  match recalcSections sections with
  | .error e => .error e
  | .ok res =>
      .ok { sectionRows := sectionRowsOf sections res.subtotals
            itemRows := itemRowsOf res.lines
            subtotal_all := res.subtotal_all
            tax := res.tax
            total := res.total }

/-- One row of `estimate_revisions` for a single document. -/
structure Revision where
  id : ℕ
  revision_no : ℤ
  status : String
  reason : Option String
  subtotal : ℚ
  tax : ℚ
  total : ℚ
deriving DecidableEq, Repr

/-- Durable state of one estimate document: its `current_revision_id`
pointer, its revision rows in creation (insertion) order, and the next id the
sequence will hand out. -/
structure DocState where
  current_revision_id : Option ℕ
  revisions : List Revision
  nextRevId : ℕ
deriving DecidableEq, Repr

/-- The fields of `EstimateUpdateIn` that `update_estimate` feeds into the
revision machinery. -/
structure UpdatePayload where
  sections : List EstimateSectionIn
  reason : Option String

/-- Failure modes of `update_estimate` past the document lookup:
HTTP 500 when `current_revision_id` is empty, HTTP 404 when the pointed-to
revision row is missing, and a propagated formula error from recalculation
(each aborts the transaction, so the state is unchanged). -/
inductive UpdateError
  | corruptState
  | revisionNotFound
  | formulaFailure (e : FormulaError)
deriving DecidableEq, Repr

/-- The `UPDATE estimate_revisions SET status='LOCKED' WHERE id=:rid`
statement. -/
def lockRevision (rid : ℕ) (revs : List Revision) : List Revision :=
  revs.map fun r => if r.id = rid then { r with status := "LOCKED" } else r

/-- Embedding of `update_estimate` (lines 661–715 of `src/service.py`) on one
document's state: resolve the current revision (`int(cur_rev.get
("revision_no") or 1)` turns a zero sequence number into 1), lock it, insert
the new revision with the next sequence number and freshly recomputed totals,
and repoint `current_revision_id`.  Header-field updates (title, receiver,
memo) touch no revision data and are not modeled.  On any error the
transaction is never committed, so the state is unchanged. -/
def updateEstimate (s : DocState) (p : UpdatePayload) : Except UpdateError (DocState × ℕ) :=
  match s.current_revision_id with
  | none => .error UpdateError.corruptState
  | some rid =>
      match s.revisions.find? (fun r => r.id == rid) with
      | none => .error UpdateError.revisionNotFound
      | some cur =>
          let curNo := if cur.revision_no = 0 then 1 else cur.revision_no
          let locked := lockRevision rid s.revisions
          match insertSectionsAndLines p.sections with
          | .error e => .error (UpdateError.formulaFailure e)
          | .ok ins =>
              let newRev : Revision :=
                { id := s.nextRevId
                  revision_no := curNo + 1
                  status := "DRAFT"
                  reason := p.reason
                  subtotal := ins.subtotal_all
                  tax := ins.tax
                  total := ins.total }
              .ok ({ current_revision_id := some s.nextRevId
                     revisions := locked ++ [newRev]
                     nextRevId := s.nextRevId + 1 }, s.nextRevId)

/-- The summary row fetched by `get_history_details`: `SELECT id AS
revision_id ... ORDER BY revision_no DESC`. -/
structure RevisionSummary where
  id : ℕ
  revision_no : ℤ
deriving DecidableEq, Repr

/-- Embedding of `get_history_details` (lines 837–867 of `src/service.py`)
down to the list of revision ids it fetches details for: order all of the
document's revisions by `revision_no` descending, drop the current revision
(`if current_rid:` — only when the pointer is a truthy integer, i.e. present
and nonzero), then slice to `max(0, int(limit or 10))` entries. -/
def getHistoryDetailIds (revs : List RevisionSummary) (current_rid : Option ℕ) (limit : ℤ) :
    List ℕ :=
  let rows := List.insertionSort (fun a b => b.revision_no ≤ a.revision_no) revs
  let rev_ids := rows.map (fun r => r.id)
  let rev_ids :=
    match current_rid with
    | some cid => if cid ≠ 0 then rev_ids.filter (fun rid => rid ≠ cid) else rev_ids
    | none => rev_ids
  rev_ids.take (max 0 (if limit = 0 then 10 else limit)).toNat

end Estimates

namespace Estimates

/-- Specification-side definition (refinement comparison for Pass 1), written
from the spec's words: the Pass-1 reference subtotal of a type as "the sum
over ALL sections of that type of their NORMAL-mode line amounts" —
"sections sharing a type accumulate into one entry". -/
def specTypeNormalSum (sections : List EstimateSectionIn) (t : SectionType) : ℚ :=
  ((sections.filter fun s => s.section_type == t).map normalSubtotal).sum

/-- The document-state invariant of the revision model: the revision rows (in
creation order) are numbered contiguously 1..N, all but the newest are
LOCKED, the newest is the DRAFT the current pointer names, ids are strictly
increasing, and every id is below the next value of the id sequence. -/
def DocState.inv (s : DocState) : Prop :=
  s.revisions ≠ [] ∧
  s.current_revision_id = (s.revisions.getLast?).map (fun r => r.id) ∧
  ((s.revisions.getLast?).map fun r => r.status) = some "DRAFT" ∧
  (∀ r ∈ s.revisions.dropLast, r.status = "LOCKED") ∧
  s.revisions.map (fun r => r.revision_no) =
    (List.range s.revisions.length).map (fun i : ℕ => (i : ℤ) + 1) ∧
  List.Pairwise (fun a b => a.id < b.id) s.revisions ∧
  (∀ r ∈ s.revisions, r.id < s.nextRevId)

/-- The rows (not just ids) that `get_history_details` selects, in selection
order; `getHistoryDetailIds` is its image under `id` (proved below), since
the code maps the ordered rows to ids before filtering and slicing. -/
def getHistoryDetailRows (revs : List RevisionSummary) (current_rid : Option ℕ) (limit : ℤ) :
    List RevisionSummary :=
  let rows := List.insertionSort (fun a b : RevisionSummary => b.revision_no ≤ a.revision_no) revs
  let rows :=
    match current_rid with
    | some cid => if cid ≠ 0 then rows.filter (fun r : RevisionSummary => r.id ≠ cid) else rows
    | none => rows
  rows.take (max 0 (if limit = 0 then 10 else limit)).toNat

/-- A NORMAL line with quantity `q` and unit price `p`. -/
def lineNormal (q p : ℚ) : EstimateLineIn :=
  { name := "item", qty := q, unit_price := some p }

/-- A PERCENT_OF_SUBTOTAL line with base type `b` and percentage `q`. -/
def linePercent (b : Option SectionType) (q : ℚ) : EstimateLineIn :=
  { name := "pct", qty := q, calc_mode := "PERCENT_OF_SUBTOTAL", base_section_type := b }

/-- The spec's own worked scenario: one MATERIAL section with a NORMAL line
`qty=10, unit_price=1000`, one PROFIT section with a
`PERCENT_OF_SUBTOTAL, base=MATERIAL, qty=10` line. -/
def scenSpec : List EstimateSectionIn :=
  [ { section_order := 1, section_type := .MATERIAL, title := "재료비",
      lines := [lineNormal 10 1000] },
    { section_order := 2, section_type := .PROFIT, title := "이윤",
      lines := [linePercent (some .MATERIAL) 10] } ]

/-- Input refuting the frozen-environment reading: the MATERIAL section holds
a NORMAL line worth 1000 and a 100% percent line (also 1000, so its Pass-2
subtotal is 2000), and a later PROFIT section takes 100% of MATERIAL. -/
def exPercentChain : List EstimateSectionIn :=
  [ { section_order := 1, section_type := .MATERIAL, title := "a",
      lines := [lineNormal 10 100, linePercent none 100] },
    { section_order := 2, section_type := .PROFIT, title := "b",
      lines := [linePercent (some .MATERIAL) 100] } ]

/-- Input with two sections of the same type: the first holds a NORMAL line
worth 1000, the second holds no lines. -/
def exSameType : List EstimateSectionIn :=
  [ { section_order := 1, section_type := .MATERIAL, title := "a",
      lines := [lineNormal 1 1000] },
    { section_order := 2, section_type := .MATERIAL, title := "b", lines := [] } ]

/-- Placeholder result used only as a `getD` default when extracting the
(always present) value of a successful computation. -/
def emptyRecalc : RecalcResult :=
  { subtotals := Subtotals.empty, subtotal_all := 0, tax := 0, total := 0, lines := [] }

/-- The computed recalculation of the spec scenario. -/
def scenSpecResult : RecalcResult := (recalcSections scenSpec).toOption.getD emptyRecalc

/-- Placeholder serialized line used as a `getD` default. -/
def dummySerialized : SerializedLine :=
  { section_type := .MANUAL, section_order := 1, title := "", line_order := 1, name := ""
    spec := none, unit := "EA", qty := 0, unit_price := none, amount := 0, remark := none
    calc_mode := "NORMAL", base_section_type := none, formula := none
    source_type := none, source_id := none, price_type := none }

/-- First serialized line of the spec scenario (the NORMAL MATERIAL line). -/
def scenSpecLine0 : SerializedLine := scenSpecResult.lines.getD 0 dummySerialized

/-- Placeholder insert result used as a `getD` default. -/
def emptyInsert : InsertResult :=
  { sectionRows := [], itemRows := [], subtotal_all := 0, tax := 0, total := 0 }

/-- The computed persistence result for `exSameType`. -/
def exSameTypeIns : InsertResult := (insertSectionsAndLines exSameType).toOption.getD emptyInsert

/-- The computed recalculation for `exSameType` (after the empty-list
substitution, which is a no-op here). -/
def exSameTypeRec : RecalcResult :=
  (recalcSections (withDefault exSameType)).toOption.getD emptyRecalc

/-- Placeholder section row used as a `getD` default. -/
def dummySectionRow : SectionRow :=
  { section_type := .MANUAL, section_order := 1, title := "", subtotal := 0 }

/-- First persisted section row of `exSameType` (physical section "a"). -/
def exSameTypeRow0 : SectionRow := exSameTypeIns.sectionRows.getD 0 dummySectionRow

/-- Placeholder revision row used as a `getD` default. -/
def dummyRevision : Revision :=
  { id := 0, revision_no := 0, status := "", reason := none, subtotal := 0, tax := 0, total := 0 }

/-- A one-revision document state: revision 7 is current, numbered 1, DRAFT. -/
def docW : DocState :=
  { current_revision_id := some 7
    revisions := [ { id := 7, revision_no := 1, status := "DRAFT", reason := none,
                     subtotal := 0, tax := 0, total := 0 } ]
    nextRevId := 8 }

/-- A concrete revise payload. -/
def payW : UpdatePayload := { sections := scenSpec, reason := some "수정" }

/-- The result of revising `docW` with `payW`. -/
def updW : DocState × ℕ := (updateEstimate docW payW).toOption.getD (docW, 0)

/-- The current revision row of `docW`. -/
def curW : Revision := (docW.revisions.getLast?).getD dummyRevision

/-- First section of `exPercentChain`. -/
def exChainSec0 : EstimateSectionIn := exPercentChain.getD 0 defaultSection

/-- The Pass-2 line computation of the first section of `exPercentChain`
under the Pass-1 environment. -/
def exChainPass2 : ℚ × List SerializedLine :=
  (pass2Lines (pass1 exPercentChain) exChainSec0 0 exChainSec0.lines).toOption.getD (0, [])

/-- The percent line serialized in the first section of `exPercentChain`. -/
def exChainLine1 : SerializedLine := exChainPass2.2.getD 1 dummySerialized

/-- The newest-first order `ORDER BY revision_no DESC` on revision summary
rows. -/
instance : IsTotal RevisionSummary (fun a b : RevisionSummary => b.revision_no ≤ a.revision_no) :=
  ⟨fun a b => le_total b.revision_no a.revision_no⟩

instance : IsTrans RevisionSummary (fun a b : RevisionSummary => b.revision_no ≤ a.revision_no) :=
  ⟨fun _ _ _ hab hbc => le_trans hbc hab⟩

/-- A concrete document history: four revisions numbered 1..4, revision id 4
current. -/
def histW : List RevisionSummary := [⟨1, 1⟩, ⟨2, 2⟩, ⟨3, 3⟩, ⟨4, 4⟩]

/-- An environment binding no variable at all. -/
def envNone : FEnv := fun _ => none

end Estimates

namespace Estimates

theorem pass1Aux_apply (sections : List EstimateSectionIn) :
    ∀ (m : Subtotals) (t : SectionType),
      pass1Aux m sections t =
        ((sections.reverse.find? fun s => s.section_type == t).map normalSubtotal).or (m t) := by
  induction sections with
  | nil => intro m t; simp [pass1Aux]
  | cons sec rest ih =>
      intro m t
      rw [pass1Aux, ih]
      rw [List.reverse_cons, List.find?_append]
      cases h : rest.reverse.find? fun s => s.section_type == t with
      | some s => simp [h]
      | none =>
          by_cases hst : sec.section_type = t
          · simp [h, List.find?, hst, Subtotals.set]
          · have : (sec.section_type == t) = false := by simp [hst]
            simp [h, List.find?, this, Subtotals.set, Ne.symm hst]

theorem pass1_apply (sections : List EstimateSectionIn) (t : SectionType) :
    pass1 sections t =
      (sections.reverse.find? fun s => s.section_type == t).map normalSubtotal := by
  rw [pass1, pass1Aux_apply]
  simp [Subtotals.empty]

/-- C2 (amended): in Pass 1 the reference subtotal of a section type is the
NORMAL-mode line sum of the LAST input section of that type — each section
assigns (not accumulates) its sum into the per-type entry, so a later section
of the same type overwrites an earlier one; the entry is absent for types with
no section. -/
theorem pass1_last_section_of_type_wins :
    ∀ (sections : List EstimateSectionIn) (t : SectionType),
      pass1 sections t =
        (sections.reverse.find? fun s => s.section_type == t).map normalSubtotal := by
  intro sections t
  exact pass1_apply sections t

/-- C2 counterexample: with two MATERIAL sections (NORMAL sums 1000 and 0),
the Pass-1 entry for MATERIAL is 0 (the last section's sum), not the 1000 the
claim's accumulate-over-all-sections reading demands. -/
theorem pass1_overwrites_cex :
    pass1 exSameType SectionType.MATERIAL = some 0 ∧
    specTypeNormalSum exSameType SectionType.MATERIAL = 1000 ∧
    (0 : ℚ) ≠ 1000 := by
  refine ⟨by decide, ?_, by norm_num⟩
  show specTypeNormalSum exSameType SectionType.MATERIAL = 1000
  simp only [specTypeNormalSum, exSameType, normalSubtotal, lineNormal, calcNormal,
    List.filter, List.map, List.foldl, List.sum]
  norm_num

/-- C7: an empty section list is replaced by one default MANUAL section with
no lines: recalculation yields subtotal, tax and total 0, no serialized
lines, and a MANUAL entry 0 in the per-type map; the persistence path writes
exactly one MANUAL section row with subtotal 0 and no item rows. -/
theorem empty_sections_default_ok :
    ((recalcSections []).map fun r => (r.subtotal_all, r.tax, r.total, r.lines)) =
      .ok (0, 0, 0, []) ∧
    ((recalcSections []).map fun r => r.subtotals SectionType.MANUAL) = .ok (some 0) ∧
    ((insertSectionsAndLines []).map fun r => (r.sectionRows, r.itemRows)) =
      .ok ([{ section_type := .MANUAL, section_order := 1, title := "수동", subtotal := 0 }],
           []) := by
  refine ⟨?_, ?_, ?_⟩ <;> with_unfolding_all rfl

/-- C10: the schema's `CalcMode` Literal is closed over NORMAL,
PERCENT_OF_SUBTOTAL and FORMULA, so a schema-validated line never reaches the
defensive else-branch of the Pass-2 dispatch; in particular the string
"MANUAL" is not a valid calculation mode at the public interface. -/
theorem calc_mode_literal_closed :
    (∀ ln : EstimateLineIn, validCalcMode ln.calc_mode = true →
      calcBranch ln ≠ CalcBranch.other) ∧
    validCalcMode "MANUAL" = false := by
  constructor
  · intro ln h
    unfold validCalcMode at h
    simp only [Bool.or_eq_true, decide_eq_true_eq] at h
    rcases h with (h | h) | h <;> (unfold calcBranch; rw [h]; decide)
  · decide

/-- C10 witness: a concrete NORMAL line is schema-valid and takes the NORMAL
branch, not the defensive default. -/
theorem calc_mode_literal_closed_witness :
    calcBranch (lineNormal 1 1) ≠ CalcBranch.other :=
  calc_mode_literal_closed.1 (lineNormal 1 1) (by decide)

/-- C4: for every successful recalculation, the document subtotal is the sum
of the per-type Pass-2 subtotals, tax is the subtotal times 0.10 rounded half
to even to a whole unit, and total is subtotal plus tax. -/
theorem totals_consistent :
    ∀ (sections : List EstimateSectionIn) (r : RecalcResult),
      recalcSections sections = .ok r →
      r.subtotal_all = r.subtotals.sumValues ∧
      r.tax = ((roundHalfEven (r.subtotal_all * (1 / 10)) : ℤ) : ℚ) ∧
      r.total = r.subtotal_all + r.tax := by
  intro sections r h
  unfold recalcSections at h
  cases hp : pass2 (pass1 (withDefault sections)) (withDefault sections) with
  | error e => simp [hp, Except.bind] at h
  | ok p =>
      obtain ⟨m2, ls⟩ := p
      simp only [hp, Except.bind] at h
      cases h
      refine ⟨?_, ?_, ?_⟩ <;> with_unfolding_all rfl

/-- C4 witness: the consistency equations instantiated on the spec's worked
scenario (subtotal 11000, tax 1100, total 12100). -/
theorem totals_consistent_witness :
    scenSpecResult.subtotal_all = scenSpecResult.subtotals.sumValues ∧
    scenSpecResult.tax = ((roundHalfEven (scenSpecResult.subtotal_all * (1 / 10)) : ℤ) : ℚ) ∧
    scenSpecResult.total = scenSpecResult.subtotal_all + scenSpecResult.tax :=
  totals_consistent scenSpec scenSpecResult (by rfl)

end Estimates

namespace Estimates

theorem pass2Lines_mem (m : Subtotals) (sec : EstimateSectionIn) :
    ∀ (lines : List EstimateLineIn) (st stOut : ℚ) (ls : List SerializedLine),
      pass2Lines m sec st lines = .ok (stOut, ls) →
      ∀ sl ∈ ls, ∃ ln ∈ lines, ∃ amt,
        lineAmount m sec.section_type ln = .ok amt ∧ sl = serializeLine sec ln amt := by
  intro lines
  induction lines with
  | nil =>
      intro st stOut ls h sl hsl
      simp only [pass2Lines, Except.ok.injEq, Prod.mk.injEq] at h
      rw [← h.2] at hsl
      simp at hsl
  | cons ln rest ih =>
      intro st stOut ls h sl hsl
      rw [pass2Lines] at h
      cases ha : lineAmount m sec.section_type ln with
      | error e => simp [ha] at h
      | ok amt =>
          simp only [ha] at h
          cases hr : pass2Lines m sec (st + amt) rest with
          | error e => simp [hr] at h
          | ok p =>
              obtain ⟨st2, ls2⟩ := p
              simp only [hr, Except.ok.injEq, Prod.mk.injEq] at h
              rw [← h.2] at hsl
              rcases List.mem_cons.mp hsl with rfl | hmem
              · exact ⟨ln, List.mem_cons_self ln rest, amt, ha, rfl⟩
              · obtain ⟨ln', hln', amt', ha', hsl'⟩ := ih _ _ _ hr sl hmem
                exact ⟨ln', List.mem_cons_of_mem ln hln', amt', ha', hsl'⟩

theorem pass2Lines_length (m : Subtotals) (sec : EstimateSectionIn) :
    ∀ (lines : List EstimateLineIn) (st stOut : ℚ) (ls : List SerializedLine),
      pass2Lines m sec st lines = .ok (stOut, ls) → ls.length = lines.length := by
  intro lines
  induction lines with
  | nil =>
      intro st stOut ls h
      simp only [pass2Lines, Except.ok.injEq, Prod.mk.injEq] at h
      rw [← h.2]
      rfl
  | cons ln rest ih =>
      intro st stOut ls h
      rw [pass2Lines] at h
      cases ha : lineAmount m sec.section_type ln with
      | error e => simp [ha] at h
      | ok amt =>
          simp only [ha] at h
          cases hr : pass2Lines m sec (st + amt) rest with
          | error e => simp [hr] at h
          | ok p =>
              obtain ⟨st2, ls2⟩ := p
              simp only [hr, Except.ok.injEq, Prod.mk.injEq] at h
              rw [← h.2]
              simp [ih _ _ _ hr]

theorem pass2_decomp (m : Subtotals) (sec : EstimateSectionIn)
    (rest : List EstimateSectionIn) (m2 : Subtotals) (ls : List SerializedLine)
    (h : pass2 m (sec :: rest) = .ok (m2, ls)) :
    ∃ st ls1 ls2,
      pass2Lines m sec 0 sec.lines = .ok (st, ls1) ∧
      pass2 (m.set sec.section_type st) rest = .ok (m2, ls2) ∧
      ls = ls1 ++ ls2 := by
  rw [pass2] at h
  cases h1 : pass2Lines m sec 0 sec.lines with
  | error e => simp [h1] at h
  | ok p =>
      obtain ⟨st, ls1⟩ := p
      simp only [h1] at h
      cases h2 : pass2 (m.set sec.section_type st) rest with
      | error e => simp [h2] at h
      | ok q =>
          obtain ⟨m2', ls2⟩ := q
          simp only [h2, Except.ok.injEq, Prod.mk.injEq] at h
          exact ⟨st, ls1, ls2, rfl, by rw [h.1] at h2; exact h2, h.2.symm⟩

theorem calcBranch_normal (ln : EstimateLineIn) (h : ln.calc_mode = "NORMAL") :
    calcBranch ln = CalcBranch.normal := by
  unfold calcBranch
  rw [h]
  decide

theorem calcBranch_percent (ln : EstimateLineIn)
    (h : ln.calc_mode = "PERCENT_OF_SUBTOTAL") :
    calcBranch ln = CalcBranch.percentOfSubtotal := by
  unfold calcBranch
  rw [h]
  decide

theorem lineAmount_normal (m : Subtotals) (t : SectionType) (ln : EstimateLineIn)
    (h : ln.calc_mode = "NORMAL") :
    lineAmount m t ln = .ok (calcNormal ln) := by
  unfold lineAmount
  rw [calcBranch_normal ln h]

theorem lineAmount_percent (m : Subtotals) (t : SectionType) (ln : EstimateLineIn)
    (h : ln.calc_mode = "PERCENT_OF_SUBTOTAL") :
    lineAmount m t ln = .ok (m.get (ln.base_section_type.getD t) * (ln.qty / 100)) := by
  unfold lineAmount
  rw [calcBranch_percent ln h]

theorem pass2_normal_amount :
    ∀ (sections : List EstimateSectionIn) (m m2 : Subtotals) (ls : List SerializedLine),
      pass2 m sections = .ok (m2, ls) →
      ∀ sl ∈ ls, sl.calc_mode = "NORMAL" →
        sl.amount = sl.qty * sl.unit_price.getD 0 := by
  intro sections
  induction sections with
  | nil =>
      intro m m2 ls h sl hsl
      simp only [pass2, Except.ok.injEq, Prod.mk.injEq] at h
      rw [← h.2] at hsl
      simp at hsl
  | cons sec rest ih =>
      intro m m2 ls h sl hsl hmode
      obtain ⟨st, ls1, ls2, h1, h2, rfl⟩ := pass2_decomp m sec rest m2 ls h
      rcases List.mem_append.mp hsl with hmem | hmem
      · obtain ⟨ln, _, amt, ha, rfl⟩ := pass2Lines_mem m sec sec.lines 0 st ls1 h1 sl hmem
        have hm : ln.calc_mode = "NORMAL" := hmode
        rw [lineAmount_normal m sec.section_type ln hm] at ha
        simp only [Except.ok.injEq] at ha
        simp [serializeLine, ← ha, calcNormal]
      · exact ih _ _ _ h2 sl hmem hmode

/-- C9: every serialized line with calc_mode NORMAL carries the amount
qty × unit_price (absent values treated as 0); Pass 1 uses the same
`calcNormal` function, whose value is qty × unit_price by definition. -/
theorem normal_line_amount :
    ∀ (sections : List EstimateSectionIn) (r : RecalcResult),
      recalcSections sections = .ok r →
      ∀ sl ∈ r.lines, sl.calc_mode = "NORMAL" →
        sl.amount = sl.qty * sl.unit_price.getD 0 := by
  intro sections r h sl hsl hmode
  unfold recalcSections at h
  cases hp : pass2 (pass1 (withDefault sections)) (withDefault sections) with
  | error e => simp [hp] at h
  | ok p =>
      obtain ⟨m2, ls⟩ := p
      simp only [hp, Except.ok.injEq] at h
      have : r.lines = ls := by rw [← h]
      rw [this] at hsl
      exact pass2_normal_amount (withDefault sections) _ _ _ hp sl hsl hmode

/-- C9 witness: the NORMAL MATERIAL line of the spec scenario has amount
10 × 1000 = 10000. -/
theorem normal_line_amount_witness :
    scenSpecLine0.amount = scenSpecLine0.qty * scenSpecLine0.unit_price.getD 0 := by
  have hlen : scenSpecResult.lines.length = 2 := by with_unfolding_all rfl
  have hpos : 0 < scenSpecResult.lines.length := by rw [hlen]; norm_num
  have hmem : scenSpecLine0 ∈ scenSpecResult.lines := by
    rw [scenSpecLine0, List.getD_eq_getElem scenSpecResult.lines dummySerialized hpos]
    exact List.getElem_mem hpos
  exact normal_line_amount scenSpec scenSpecResult (by with_unfolding_all rfl) scenSpecLine0
    hmem (by with_unfolding_all rfl)

end Estimates

namespace Estimates

theorem pass2Lines_percent_amount (m : Subtotals) (sec : EstimateSectionIn)
    (lines : List EstimateLineIn) (st stOut : ℚ) (ls : List SerializedLine)
    (h : pass2Lines m sec st lines = .ok (stOut, ls)) :
    ∀ sl ∈ ls, sl.calc_mode = "PERCENT_OF_SUBTOTAL" →
      sl.amount = m.get (sl.base_section_type.getD sl.section_type) * (sl.qty / 100) := by
  intro sl hmem hmode
  obtain ⟨ln, _, amt, ha, rfl⟩ := pass2Lines_mem m sec lines st stOut ls h sl hmem
  have hm : ln.calc_mode = "PERCENT_OF_SUBTOTAL" := hmode
  rw [lineAmount_percent m sec.section_type ln hm] at ha
  simp only [Except.ok.injEq] at ha
  simp [serializeLine, ← ha]

/-- C1 (amended): a PERCENT_OF_SUBTOTAL line's amount equals (base subtotal)
× (qty / 100), where the base subtotal is looked up (defaulting to 0 when
absent) in the subtotal dictionary that is CURRENT when the line's section is
processed in Pass 2 — the Pass-1 environment only for the first section,
because Pass 2 reassigns each section's full Pass-2 subtotal into the
dictionary before moving to the next section (the environment is not frozen;
later sections observe earlier sections' percent/formula contributions). -/
theorem percent_uses_current_env :
    (∀ (m : Subtotals) (sec : EstimateSectionIn) (st stOut : ℚ)
        (ls : List SerializedLine),
      pass2Lines m sec st sec.lines = .ok (stOut, ls) →
      ∀ sl ∈ ls, sl.calc_mode = "PERCENT_OF_SUBTOTAL" →
        sl.amount = m.get (sl.base_section_type.getD sl.section_type) * (sl.qty / 100)) ∧
    (∀ (sec : EstimateSectionIn) (rest : List EstimateSectionIn) (r : RecalcResult),
      recalcSections (sec :: rest) = .ok r →
      ∀ sl ∈ r.lines.take sec.lines.length, sl.calc_mode = "PERCENT_OF_SUBTOTAL" →
        sl.amount =
          (pass1 (sec :: rest)).get (sl.base_section_type.getD sl.section_type) *
            (sl.qty / 100)) := by
  constructor
  · intro m sec st stOut ls h
    exact pass2Lines_percent_amount m sec sec.lines st stOut ls h
  · intro sec rest r h sl hmem hmode
    have hwd : withDefault (sec :: rest) = sec :: rest := by simp [withDefault]
    unfold recalcSections at h
    rw [hwd] at h
    cases hp : pass2 (pass1 (sec :: rest)) (sec :: rest) with
    | error e => simp [hp] at h
    | ok p =>
        obtain ⟨m2, ls⟩ := p
        simp only [hp, Except.ok.injEq] at h
        have hlines : r.lines = ls := by rw [← h]
        obtain ⟨st, ls1, ls2, h1, _, rfl⟩ := pass2_decomp _ sec rest m2 ls hp
        have hlen : ls1.length = sec.lines.length :=
          pass2Lines_length _ sec sec.lines 0 st ls1 h1
        rw [hlines, ← hlen, List.take_left] at hmem
        exact pass2Lines_percent_amount _ sec sec.lines 0 st ls1 h1 sl hmem hmode

/-- C1 counterexample: in `exPercentChain` the PROFIT section's percent line
(100% of MATERIAL) gets amount 2000 — the MATERIAL section's full Pass-2
subtotal including its own percent line — while the claim's frozen Pass-1
environment (NORMAL lines only) predicts 1000 × (100/100) = 1000. -/
theorem percent_frozen_env_cex :
    ((recalcSections exPercentChain).map fun r =>
        r.lines.map fun sl => (sl.calc_mode, sl.amount)) =
      .ok [("NORMAL", 1000), ("PERCENT_OF_SUBTOTAL", 1000),
           ("PERCENT_OF_SUBTOTAL", 2000)] ∧
    (pass1 exPercentChain).get SectionType.MATERIAL * ((100 : ℚ) / 100) = 1000 ∧
    (2000 : ℚ) ≠ 1000 := by
  refine ⟨by with_unfolding_all rfl, by with_unfolding_all rfl, by norm_num⟩

/-- C1 witness: the first-section percent line of `exPercentChain` (100% of
its own MATERIAL section) satisfies the amended equation under the Pass-1
environment. -/
theorem percent_uses_current_env_witness :
    exChainLine1.amount =
      (pass1 exPercentChain).get
        (exChainLine1.base_section_type.getD exChainLine1.section_type) *
        (exChainLine1.qty / 100) := by
  have hlen : exChainPass2.2.length = 2 := by with_unfolding_all rfl
  have hpos : 1 < exChainPass2.2.length := by rw [hlen]; norm_num
  have hmem : exChainLine1 ∈ exChainPass2.2 := by
    rw [exChainLine1, List.getD_eq_getElem exChainPass2.2 dummySerialized hpos]
    exact List.getElem_mem hpos
  exact percent_uses_current_env.1 (pass1 exPercentChain) exChainSec0 0
    exChainPass2.1 exChainPass2.2 (by with_unfolding_all rfl) exChainLine1 hmem
    (by with_unfolding_all rfl)

end Estimates

namespace Estimates

/-- C3 counterexample: for `exSameType`, physical section "a" (one NORMAL
line with final amount 1000, so its own Pass-2 subtotal is 1000) is persisted
with subtotal 0: the insert path stores `subtotals.get(sec.section_type)`,
the final per-type value, which the later same-type section "b" overwrote. -/
theorem section_subtotal_shared_cex :
    ((insertSectionsAndLines exSameType).map fun r =>
        (r.sectionRows.map fun row => (row.title, row.subtotal),
         r.itemRows.map fun it => it.line_total)) =
      .ok ([("a", 0), ("b", 0)], [1000]) ∧
    (0 : ℚ) ≠ 1000 := by
  refine ⟨by with_unfolding_all rfl, by norm_num⟩

/-- C3 (amended): each persisted section row's subtotal is the aggregator's
FINAL per-type subtotal looked up by the row's section type (the Pass-2
subtotal of the last section of that type), so sections sharing a type all
receive the same persisted subtotal rather than each keeping its own. -/
theorem section_rows_subtotal_from_type_map :
    ∀ (sections0 : List EstimateSectionIn) (ins : InsertResult) (rec : RecalcResult),
      insertSectionsAndLines sections0 = .ok ins →
      recalcSections (withDefault sections0) = .ok rec →
      (∀ row ∈ ins.sectionRows, row.subtotal = rec.subtotals.get row.section_type) ∧
      (∀ row ∈ ins.sectionRows, ∀ row2 ∈ ins.sectionRows,
        row.section_type = row2.section_type → row.subtotal = row2.subtotal) := by
  intro sections0 ins rec h1 h2
  unfold insertSectionsAndLines at h1
  simp only [h2, Except.ok.injEq] at h1
  have hrows : ins.sectionRows = sectionRowsOf (withDefault sections0) rec.subtotals := by
    rw [← h1]
  have hmain : ∀ row ∈ ins.sectionRows, row.subtotal = rec.subtotals.get row.section_type := by
    intro row hrow
    rw [hrows] at hrow
    unfold sectionRowsOf at hrow
    obtain ⟨sec, _, rfl⟩ := List.mem_map.mp hrow
    rfl
  refine ⟨hmain, ?_⟩
  intro row hrow row2 hrow2 htype
  rw [hmain row hrow, hmain row2 hrow2, htype]

/-- C3 witness: the persisted subtotal of the first `exSameType` row equals
the final per-type map value for its type. -/
theorem section_rows_subtotal_from_type_map_witness :
    exSameTypeRow0.subtotal = exSameTypeRec.subtotals.get exSameTypeRow0.section_type := by
  have hlen : exSameTypeIns.sectionRows.length = 2 := by with_unfolding_all rfl
  have hpos : 0 < exSameTypeIns.sectionRows.length := by rw [hlen]; norm_num
  have hmem : exSameTypeRow0 ∈ exSameTypeIns.sectionRows := by
    rw [exSameTypeRow0, List.getD_eq_getElem exSameTypeIns.sectionRows dummySectionRow hpos]
    exact List.getElem_mem hpos
  exact (section_rows_subtotal_from_type_map exSameType exSameTypeIns exSameTypeRec
    (by with_unfolding_all rfl) (by with_unfolding_all rfl)).1 exSameTypeRow0 hmem

end Estimates

namespace Estimates

theorem evalPy_shape :
    ∀ (e : PyExpr) (env : FEnv), allowedTree e = true → unknownNames env e = [] →
      (∃ q, evalPy env e = .ok q) ∨
      evalPy env e = .error .zeroDivision ∨
      evalPy env e = .error .nonIntegerPow := by
  intro e
  induction e with
  | num v => intro env _ _; exact .inl ⟨v, rfl⟩
  | name id =>
      intro env _ hn
      simp only [unknownNames] at hn
      by_cases hs : (env id).isSome
      · obtain ⟨v, hv⟩ := Option.isSome_iff_exists.mp hs
        exact .inl ⟨v, by simp [evalPy, hv]⟩
      · rw [if_neg (by simpa using hs)] at hn
        cases hn
  | binop op l r ihl ihr =>
      intro env ha hn
      simp only [allowedTree, Bool.and_eq_true] at ha
      simp only [unknownNames, List.append_eq_nil] at hn
      rcases ihl env ha.1 hn.1 with ⟨a, hA⟩ | hA | hA
      · rcases ihr env ha.2 hn.2 with ⟨b, hB⟩ | hB | hB
        · cases op with
          | add => exact .inl ⟨a + b, by simp [evalPy, hA, hB]⟩
          | sub => exact .inl ⟨a - b, by simp [evalPy, hA, hB]⟩
          | mult => exact .inl ⟨a * b, by simp [evalPy, hA, hB]⟩
          | div =>
              by_cases hb : b = 0
              · exact .inr (.inl (by simp [evalPy, hA, hB, hb]))
              · exact .inl ⟨a / b, by simp [evalPy, hA, hB, hb]⟩
          | pow =>
              by_cases hd : b.den = 1
              · by_cases hz : a = 0 ∧ b.num < 0
                · refine .inr (.inl ?_)
                  simp only [evalPy, hA, hB]
                  rw [if_pos hd, if_pos hz]
                · refine .inl ⟨a ^ b.num, ?_⟩
                  simp only [evalPy, hA, hB]
                  rw [if_pos hd, if_neg hz]
              · refine .inr (.inr ?_)
                simp only [evalPy, hA, hB]
                rw [if_neg hd]
        · exact .inr (.inl (by simp [evalPy, hA, hB]))
        · exact .inr (.inr (by simp [evalPy, hA, hB]))
      · exact .inr (.inl (by simp [evalPy, hA]))
      · exact .inr (.inr (by simp [evalPy, hA]))
  | unaryop op e ih =>
      intro env ha hn
      simp only [allowedTree] at ha
      simp only [unknownNames] at hn
      rcases ih env ha hn with ⟨a, hA⟩ | hA | hA
      · cases op with
        | uadd => exact .inl ⟨a, by simp [evalPy, hA]⟩
        | usub => exact .inl ⟨-a, by simp [evalPy, hA]⟩
      · exact .inr (.inl (by simp [evalPy, hA]))
      · exact .inr (.inr (by simp [evalPy, hA]))
  | call f arg _ _ => intro env ha _; simp [allowedTree] at ha
  | attrAccess obj attr _ => intro env ha _; simp [allowedTree] at ha
  | subscript obj idx _ _ => intro env ha _; simp [allowedTree] at ha
  | compare l r _ _ => intro env ha _; simp [allowedTree] at ha
  | boolop l r _ _ => intro env ha _; simp [allowedTree] at ha

/-- C5 (amended): the formula evaluator fails with an InvalidFormula
(HTTP 400) error exactly when the tree contains a non-allow-listed node or an
identifier missing from the environment (the parse-failure case lives at the
string layer, before a tree exists); when neither holds, it either returns a
number or raises an arithmetic exception (ZeroDivisionError in Python — plus
the rational model's marker for a non-integer exponent), which is NOT an
InvalidFormula rejection and escapes `_eval_formula` unhandled. -/
theorem evalFormula_failure_modes :
    ∀ (e : PyExpr) (env : FEnv),
      ((∃ err, evalFormula e env = .error err ∧ err.isInvalidFormula = true) ↔
        (allowedTree e = false ∨ unknownNames env e ≠ [])) ∧
      (allowedTree e = true → unknownNames env e = [] →
        ((∃ q, evalFormula e env = .ok q) ∨
         evalFormula e env = .error .zeroDivision ∨
         evalFormula e env = .error .nonIntegerPow)) := by
  intro e env
  cases hA : allowedTree e with
  | false =>
      have he : evalFormula e env = .error .disallowedNode := by
        simp [evalFormula, hA]
      refine ⟨⟨fun _ => .inl rfl, fun _ => ⟨.disallowedNode, he, rfl⟩⟩, ?_⟩
      intro h
      exact Bool.noConfusion h
  | true =>
      cases hU : unknownNames env e with
      | nil =>
          have he : evalFormula e env = evalPy env e := by
            simp [evalFormula, hA, hU]
          constructor
          · constructor
            · rintro ⟨err, herr, hinv⟩
              rw [he] at herr
              rcases evalPy_shape e env hA hU with ⟨q, hq⟩ | hq | hq
              · rw [hq] at herr; cases herr
              · rw [hq] at herr
                cases herr
                cases hinv
              · rw [hq] at herr
                cases herr
                cases hinv
            · rintro (h | h)
              · exact Bool.noConfusion h
              · exact absurd rfl h
          · intro _ _
            rw [he]
            exact evalPy_shape e env hA hU
      | cons id rest =>
          have he : evalFormula e env = .error (.unknownVariable id) := by
            simp [evalFormula, hA, hU]
          constructor
          · exact ⟨fun _ => .inr (by simp), fun _ => ⟨.unknownVariable id, he, rfl⟩⟩
          · intro _ h
            simp at h

/-- C5 witness: the amended classification instantiated on the literal `3`
with the empty environment (allow-listed, no identifiers). -/
theorem evalFormula_failure_modes_witness :
    (∃ q, evalFormula (PyExpr.num 3) envNone = .ok q) ∨
    evalFormula (PyExpr.num 3) envNone = .error .zeroDivision ∨
    evalFormula (PyExpr.num 3) envNone = .error .nonIntegerPow :=
  (evalFormula_failure_modes (PyExpr.num 3) envNone).2 rfl rfl

/-- C5 counterexample: the formula `1/0` parses, every node is allow-listed
and it contains no identifiers, yet evaluation does not return a number: it
raises ZeroDivisionError, which is not an InvalidFormula rejection. -/
theorem formula_zero_division_cex :
    evalFormula (PyExpr.binop BOp.div (PyExpr.num 1) (PyExpr.num 0)) envNone =
      .error FormulaError.zeroDivision ∧
    FormulaError.zeroDivision.isInvalidFormula = false ∧
    allowedTree (PyExpr.binop BOp.div (PyExpr.num 1) (PyExpr.num 0)) = true ∧
    unknownNames envNone (PyExpr.binop BOp.div (PyExpr.num 1) (PyExpr.num 0)) = [] := by
  refine ⟨by with_unfolding_all rfl, rfl, rfl, rfl⟩

end Estimates

namespace Estimates

theorem getHistoryDetailIds_eq_rows (revs : List RevisionSummary) (c : Option ℕ)
    (limit : ℤ) :
    getHistoryDetailIds revs c limit =
      (getHistoryDetailRows revs c limit).map (fun r => r.id) := by
  unfold getHistoryDetailIds getHistoryDetailRows
  cases c with
  | none => simp [List.map_take]
  | some cid =>
      by_cases h : cid ≠ 0
      · simp only [if_pos h]
        rw [List.map_filter (fun r : RevisionSummary => r.id)
          (List.insertionSort (fun a b : RevisionSummary => b.revision_no ≤ a.revision_no) revs)]
        rw [List.map_take]
        rfl
      · simp [h, List.map_take]

theorem history_rows_sorted (revs : List RevisionSummary) (c : Option ℕ) (limit : ℤ) :
    List.Pairwise (fun a b : RevisionSummary => b.revision_no ≤ a.revision_no)
      (getHistoryDetailRows revs c limit) := by
  have hs : List.Sorted (fun a b : RevisionSummary => b.revision_no ≤ a.revision_no)
      (List.insertionSort (fun a b : RevisionSummary => b.revision_no ≤ a.revision_no) revs) :=
    List.sorted_insertionSort _ revs
  unfold getHistoryDetailRows
  cases c with
  | none => exact List.Pairwise.sublist (List.take_sublist _ _) hs
  | some cid =>
      by_cases h : cid ≠ 0
      · simp only [if_pos h]
        exact List.Pairwise.sublist
          ((List.take_sublist _ _).trans (List.filter_sublist _)) hs
      · simp only [if_neg h]
        exact List.Pairwise.sublist (List.take_sublist _ _) hs

/-- C8: with a limit in 1..10 and a current revision with positive id, the
history-details selection returns at most `limit` revisions, never the
current one, and in revision_no-descending (newest-first) order: the id list
is the image of the selected rows, which are pairwise ordered by descending
revision_no. -/
theorem history_details_spec :
    ∀ (revs : List RevisionSummary) (cid : ℕ) (limit : ℤ),
      1 ≤ limit → limit ≤ 10 → 0 < cid →
      (getHistoryDetailIds revs (some cid) limit).length ≤ limit.toNat ∧
      cid ∉ getHistoryDetailIds revs (some cid) limit ∧
      getHistoryDetailIds revs (some cid) limit =
        (getHistoryDetailRows revs (some cid) limit).map (fun r => r.id) ∧
      List.Pairwise (fun a b : RevisionSummary => b.revision_no ≤ a.revision_no)
        (getHistoryDetailRows revs (some cid) limit) := by
  intro revs cid limit h1 _ hcid
  have hne : limit ≠ 0 := by omega
  have hmax : max 0 (if limit = 0 then 10 else limit) = limit := by
    rw [if_neg hne]
    omega
  refine ⟨?_, ?_, getHistoryDetailIds_eq_rows revs (some cid) limit,
    history_rows_sorted revs (some cid) limit⟩
  · unfold getHistoryDetailIds
    rw [hmax]
    simp [List.length_take]
  · intro hmem
    have hcid' : cid ≠ 0 := by omega
    simp only [getHistoryDetailIds, if_pos hcid'] at hmem
    have hmem2 := List.take_subset _ _ hmem
    have := (List.mem_filter.mp hmem2).2
    simp at this

/-- C8 witness: for the four-revision history with current id 4 and limit 2,
the selection keeps at most 2 rows, omits revision 4, and is newest-first. -/
theorem history_details_spec_witness :
    (getHistoryDetailIds histW (some 4) 2).length ≤ (2 : ℤ).toNat ∧
    4 ∉ getHistoryDetailIds histW (some 4) 2 ∧
    getHistoryDetailIds histW (some 4) 2 =
      (getHistoryDetailRows histW (some 4) 2).map (fun r => r.id) ∧
    List.Pairwise (fun a b : RevisionSummary => b.revision_no ≤ a.revision_no)
      (getHistoryDetailRows histW (some 4) 2) :=
  history_details_spec histW 4 2 (by norm_num) (by norm_num) (by norm_num)

end Estimates

namespace Estimates

theorem find_last_of_fresh (L : List Revision) (c : Revision)
    (h : ∀ r ∈ L, r.id ≠ c.id) :
    (L ++ [c]).find? (fun r => r.id == c.id) = some c := by
  induction L with
  | nil => simp [List.find?]
  | cons a L ih =>
      have ha : (a.id == c.id) = false := by
        simp only [beq_eq_false_iff_ne]
        exact h a (List.mem_cons_self a L)
      rw [List.cons_append, List.find?_cons_of_neg, ih]
      · intro r hr
        exact h r (List.mem_cons_of_mem a hr)
      · simp [ha]

theorem lockRevision_last (L : List Revision) (c : Revision)
    (h : ∀ r ∈ L, r.id ≠ c.id) :
    lockRevision c.id (L ++ [c]) = L ++ [{ c with status := "LOCKED" }] := by
  unfold lockRevision
  rw [List.map_append]
  congr 1
  · exact (List.map_congr_left fun r hr => by rw [if_neg (h r hr)]; rfl).trans (List.map_id L)
  · simp

theorem last_revision_no (L : List Revision) (c : Revision)
    (h : (L ++ [c]).map (fun r => r.revision_no) =
      (List.range (L ++ [c]).length).map (fun i : ℕ => (i : ℤ) + 1)) :
    c.revision_no = (L.length : ℤ) + 1 := by
  rw [List.map_append, List.length_append, List.length_singleton, List.range_succ,
    List.map_append] at h
  have hlen : (L.map fun r => r.revision_no).length =
      ((List.range L.length).map fun i : ℕ => (i : ℤ) + 1).length := by simp
  have h2 := List.append_inj_right h hlen
  simp only [List.map_cons, List.map_nil, List.cons.injEq] at h2
  exact h2.1

end Estimates

namespace Estimates

/-- C6: a successful revise on a document whose current revision is `cur`
(sequence number R) locks `cur`, appends a new revision numbered R+1 with
freshly recomputed totals and DRAFT status, repoints the current-revision
reference to it, and preserves the document invariant (revision numbers
contiguous 1..N in creation order, every revision but the newest LOCKED, the
newest one current and non-LOCKED). -/
theorem update_estimate_revisioning :
    ∀ (s : DocState) (p : UpdatePayload) (s2 : DocState) (nid : ℕ) (cur : Revision),
      DocState.inv s →
      s.revisions.getLast? = some cur →
      updateEstimate s p = .ok (s2, nid) →
      DocState.inv s2 ∧
      s2.current_revision_id = some nid ∧
      ((s2.revisions.getLast?).map fun r => (r.id, r.revision_no, r.status)) =
        some (nid, cur.revision_no + 1, "DRAFT") ∧
      (∃ ins, insertSectionsAndLines p.sections = .ok ins ∧
        ((s2.revisions.getLast?).map fun r => (r.subtotal, r.tax, r.total)) =
          some (ins.subtotal_all, ins.tax, ins.total)) ∧
      { cur with status := "LOCKED" } ∈ s2.revisions := by
  intro s p s2 nid cur hinv hlast hupd
  obtain ⟨hne, hptr, hdraft, hlocked, hnos, hpair, hidlt⟩ := hinv
  obtain ⟨L, hL⟩ := List.getLast?_eq_some_iff.mp hlast
  have hfresh : ∀ r ∈ L, r.id ≠ cur.id := by
    rw [hL, List.pairwise_append] at hpair
    intro r hr
    exact Nat.ne_of_lt (hpair.2.2 r hr cur (List.mem_singleton.mpr rfl))
  have hptr' : s.current_revision_id = some cur.id := by
    rw [hptr, hlast]
    rfl
  have hnos' : (L ++ [cur]).map (fun r => r.revision_no) =
      (List.range (L ++ [cur]).length).map (fun i : ℕ => (i : ℤ) + 1) := by
    rw [← hL]
    exact hnos
  have hno : cur.revision_no = (L.length : ℤ) + 1 := last_revision_no L cur hnos'
  have hno0 : ¬ (cur.revision_no = 0) := by
    rw [hno]
    omega
  have hfind : s.revisions.find? (fun r => r.id == cur.id) = some cur := by
    rw [hL]
    exact find_last_of_fresh L cur hfresh
  unfold updateEstimate at hupd
  simp only [hptr', hfind, if_neg hno0] at hupd
  cases hins : insertSectionsAndLines p.sections with
  | error e => simp [hins] at hupd
  | ok ins =>
      simp only [hins, Except.ok.injEq, Prod.mk.injEq] at hupd
      obtain ⟨hs2, hnid⟩ := hupd
      subst hnid
      rw [← hs2]
      have hlock : lockRevision cur.id s.revisions =
          L ++ [{ cur with status := "LOCKED" }] := by
        rw [hL]
        exact lockRevision_last L cur hfresh
      rw [hlock]
      dsimp only
      constructor
      · -- the invariant for the new state
        refine ⟨by simp, ?_, ?_, ?_, ?_, ?_, ?_⟩
        · simp [List.getLast?_concat]
        · simp [List.getLast?_concat]
        · rw [List.dropLast_concat]
          intro r hr
          rcases List.mem_append.mp hr with hr | hr
          · apply hlocked
            rw [hL, List.dropLast_concat]
            exact hr
          · rw [List.mem_singleton.mp hr]
        · have h1 : ((L ++ [{ cur with status := "LOCKED" }]) ++
              [({ id := s.nextRevId, revision_no := cur.revision_no + 1,
                  status := "DRAFT", reason := p.reason, subtotal := ins.subtotal_all,
                  tax := ins.tax, total := ins.total } : Revision)]).map
                (fun r : Revision => r.revision_no) =
              ((L ++ [cur]).map (fun r : Revision => r.revision_no)) ++
                [cur.revision_no + 1] := by
            simp
          have h2 : ((L ++ [{ cur with status := "LOCKED" }]) ++
              [({ id := s.nextRevId, revision_no := cur.revision_no + 1,
                  status := "DRAFT", reason := p.reason, subtotal := ins.subtotal_all,
                  tax := ins.tax, total := ins.total } : Revision)]).length =
              (L ++ [cur]).length + 1 := by
            simp
          rw [h1, h2, hnos', List.range_succ, List.map_append]
          congr 1
          have h3 : (L ++ [cur]).length = L.length + 1 := by simp
          rw [h3, hno]
          simp only [List.map_cons, List.map_nil, List.cons.injEq, and_true]
          push_cast
          ring
        · rw [List.pairwise_append]
          refine ⟨?_, by simp, ?_⟩
          · rw [List.pairwise_append]
            rw [hL, List.pairwise_append] at hpair
            refine ⟨hpair.1, by simp, ?_⟩
            intro a ha b hb
            rw [List.mem_singleton.mp hb]
            exact hpair.2.2 a ha cur (List.mem_singleton.mpr rfl)
          · intro a ha b hb
            rw [List.mem_singleton.mp hb]
            have : a.id < s.nextRevId := by
              rcases List.mem_append.mp ha with ha | ha
              · exact hidlt a (by rw [hL]; exact List.mem_append.mpr (.inl ha))
              · rw [List.mem_singleton.mp ha]
                exact hidlt cur (by rw [hL]; exact List.mem_append.mpr (.inr (List.mem_singleton.mpr rfl)))
            exact this
        · intro r hr
          show r.id < s.nextRevId + 1
          rcases List.mem_append.mp hr with hr | hr
          · have : r.id < s.nextRevId := by
              rcases List.mem_append.mp hr with hr | hr
              · exact hidlt r (by rw [hL]; exact List.mem_append.mpr (.inl hr))
              · rw [List.mem_singleton.mp hr]
                exact hidlt cur (by rw [hL]; exact List.mem_append.mpr (.inr (List.mem_singleton.mpr rfl)))
            omega
          · rw [List.mem_singleton.mp hr]
            show s.nextRevId < s.nextRevId + 1
            omega
      · refine ⟨rfl, by simp [List.getLast?_concat], ⟨ins, rfl, by simp [List.getLast?_concat]⟩, ?_⟩
        exact List.mem_append.mpr (.inl (List.mem_append.mpr (.inr (List.mem_singleton.mpr rfl))))

end Estimates

namespace Estimates

/-- C6 witness: revising the one-revision document `docW` (current revision 7,
numbered 1) yields a state satisfying the invariant, with a new current
revision numbered 2 and DRAFT, recomputed totals, and revision 7 LOCKED. -/
theorem update_estimate_revisioning_witness :
    DocState.inv updW.1 ∧
    updW.1.current_revision_id = some updW.2 ∧
    ((updW.1.revisions.getLast?).map fun r => (r.id, r.revision_no, r.status)) =
      some (updW.2, curW.revision_no + 1, "DRAFT") ∧
    (∃ ins, insertSectionsAndLines payW.sections = .ok ins ∧
      ((updW.1.revisions.getLast?).map fun r => (r.subtotal, r.tax, r.total)) =
        some (ins.subtotal_all, ins.tax, ins.total)) ∧
    { curW with status := "LOCKED" } ∈ updW.1.revisions :=
  update_estimate_revisioning docW payW updW.1 updW.2 curW
    (by unfold DocState.inv; refine ⟨?_, ?_, ?_, ?_, ?_, ?_, ?_⟩ <;> decide)
    (by with_unfolding_all rfl) (by with_unfolding_all rfl)

end Estimates
